import Mathlib

/- Verification of the message normalization & threading engine of the
   evp-itc-archive scripts.  The Python scripts are shallowly embedded:
   dict records become typed structures of optional fields, Python
   truthiness and the `or` chains are modelled explicitly, and the
   regular-expression substitutions of the source are translated into
   deterministic character scanners that implement the exact (raw-string)
   patterns that appear in the source text. -/

set_option maxHeartbeats 1000000

namespace EvpItc

/-- Python values as they occur in the archive records: strings, ints and
lists (the only shapes the scripts ever read from the relevant keys). -/
inductive DVal where
  | s (v : String)
  | i (v : Int)
  | l (v : List DVal)

/-- Python truthiness of an optional dict value (`None`, `""`, `0` and
`[]` are falsy). -/
def pyTruthy : Option DVal → Bool
  | none => false
  | some (.s v) => v != ""
  | some (.i v) => v != 0
  | some (.l v) => !v.isEmpty

/-- Python `a or b` on optional dict values: the first operand when it is
truthy, otherwise the second operand (even when that one is falsy). -/
def pyOr (a b : Option DVal) : Option DVal := if pyTruthy a then a else b

/-- Python `a or b` for optional strings (used for the author chain). -/
def strTruthy : Option String → Bool
  | none => false
  | some v => v ≠ ""

/-- Python `a or b` on optional strings. -/
def strOr (a b : Option String) : Option String := if strTruthy a then a else b

/-- ASCII whitespace as recognised by Python's `str.strip` (the scripts
only ever meet ASCII whitespace; the Unicode cases are out of scope). -/
def isPyWs (c : Char) : Bool :=
  c = ' ' || c = '\t' || c = '\n' || c = '\r' || c = Char.ofNat 11 || c = Char.ofNat 12

/-- Python `str.strip()` on a character list. -/
def stripChars (cs : List Char) : List Char :=
  ((cs.dropWhile isPyWs).reverse.dropWhile isPyWs).reverse

/-- Python `str.strip()`: drop leading and trailing whitespace. -/
def pyStrip (s : String) : String := String.mk (stripChars s.data)

/-- Python `str.replace(pat, rep)`: left-to-right, non-overlapping (the
pattern is never empty where the scripts use it). -/
def replAux (pat rep : List Char) : Nat → List Char → List Char
  | 0, cs => cs
  | _ + 1, [] => []
  | fuel + 1, c :: rest =>
    if (c :: rest).take pat.length = pat then
      rep ++ replAux pat rep fuel ((c :: rest).drop pat.length)
    else c :: replAux pat rep fuel rest

/-- Python `str.replace`. -/
def pyReplace (s pat rep : String) : String :=
  String.mk (replAux pat.data rep.data (s.length + 1) s.data)

/-- Python `repr` of a string: quote selection and quote/backslash
escaping (escaping of control characters is not modelled; it is only
reachable through list-valued id fields, which the corpus never has). -/
def pyQuote (v : String) : String :=
  let apos : Char := Char.ofNat 39
  let quot : Char := Char.ofNat 34
  let q : Char := if v.data.contains apos && ¬ v.data.contains quot then quot else apos
  let esc := v.data.flatMap (fun c => if c = q || c = Char.ofNat 92 then [Char.ofNat 92, c] else [c])
  String.mk (q :: esc ++ [q])

/-- Python `repr` on a record value (`str` and `repr` agree on ints and
lists; on strings `str` is the identity while `repr` quotes). -/
def pyRepr : DVal → String
  | .s v => pyQuote v
  | .i v => toString v
  | .l vs => ("[") ++ String.intercalate (", ") (vs.attach.map (fun p => pyRepr p.1)) ++ ("]")
decreasing_by
  simp only [DVal.l.sizeOf_spec]
  have := List.sizeOf_lt_of_mem p.2
  omega

/-- Python `str` on a record value. -/
def pyStr : DVal → String
  | .s v => v
  | .i v => toString v
  | .l vs => pyRepr (.l vs)

/-- Validates the tail of a Python integer literal body: digits with
single underscores allowed only between digits. -/
def underscoreDigits : List Char → Bool
  | [] => true
  | c :: rest =>
    if c.isDigit then underscoreDigits rest
    else if c = Char.ofNat 95 then
      match rest with
      | [] => false
      | d :: rest2 => d.isDigit && underscoreDigits (d :: rest2)
    else false

/-- Numeric value of a digit list, ignoring underscores. -/
def digitsVal (cs : List Char) : Nat :=
  (cs.filter (fun c => c.isDigit)).foldl (fun a c => a * 10 + (c.toNat - 48)) 0

/-- Python `int(x)` on a record value: ints pass through, strings are
stripped and parsed as an optionally signed decimal literal (with
underscores between digits), everything else raises (`none`). -/
def pyInt : DVal → Option Int
  | .i v => some v
  | .l _ => none
  | .s v =>
    let cs := ((v.data.dropWhile isPyWs).reverse.dropWhile isPyWs).reverse
    match cs with
    | [] => none
    | c :: rest =>
      let (neg, body) : Bool × List Char :=
        if c = '-' then (true, rest) else if c = '+' then (false, rest) else (false, c :: rest)
      match body with
      | [] => none
      | d :: ds =>
        if d.isDigit && underscoreDigits ds then
          let n : Int := Int.ofNat (digitsVal (d :: ds))
          some (if neg then -n else n)
        else none

/-- Civil date from a day count relative to 1970-01-01 (proleptic
Gregorian calendar, the algorithm used by CPython's datetime). -/
def civilFromDays (z0 : Int) : Int × Nat × Nat :=
  let z := z0 + 719468
  let era := Int.fdiv z 146097
  let doe := z - era * 146097
  let yoe := Int.fdiv (doe - Int.fdiv doe 1460 + Int.fdiv doe 36524 - Int.fdiv doe 146096) 365
  let y := yoe + era * 400
  let doy := doe - (365 * yoe + Int.fdiv yoe 4 - Int.fdiv yoe 100)
  let mp := Int.fdiv (5 * doy + 2) 153
  let d := doy - Int.fdiv (153 * mp + 2) 5 + 1
  let m := mp + (if mp < 10 then 3 else -9)
  (y + (if m ≤ 2 then 1 else 0), m.toNat, d.toNat)

/-- Day count relative to 1970-01-01 of a civil date. -/
def daysFromCivil (y : Int) (m d : Nat) : Int :=
  let y1 := y - (if m ≤ 2 then 1 else 0)
  let era := Int.fdiv y1 400
  let yoe := y1 - era * 400
  let mInt : Int := Int.ofNat m
  let doy := Int.fdiv (153 * (mInt + (if m > 2 then -3 else 9)) + 2) 5 + Int.ofNat d - 1
  let doe := yoe * 365 + Int.fdiv yoe 4 - Int.fdiv yoe 100 + doy
  era * 146097 + doe - 719468

/-- A UTC wall-clock instant as produced by `datetime.utcfromtimestamp`. -/
structure CivDT where
  year : Int
  month : Nat
  day : Nat
  hour : Nat
  minute : Nat
  second : Nat
deriving Repr, DecidableEq

/-- Conversion of an integer Unix epoch to its UTC calendar fields. -/
def epochToCiv (v : Int) : CivDT :=
  let days := Int.fdiv v 86400
  let sod := (v - days * 86400).toNat
  let ymd := civilFromDays days
  { year := ymd.1, month := ymd.2.1, day := ymd.2.2
  , hour := sod / 3600, minute := sod % 3600 / 60, second := sod % 60 }

/-- Range of epochs representable by `datetime` (year 1 to year 9999);
outside of it `utcfromtimestamp` raises and `to_iso_and_year` falls into
its catch-all branch. -/
def utcfromtimestampQ (v : Int) : Option CivDT :=
  if v < -62135596800 ∨ v > 253402300799 then none else some (epochToCiv v)

/-- Left-pad a numeral to two digits. -/
def pad2 (n : Nat) : String := if n < 10 then ("0") ++ toString n else toString n

/-- Left-pad a year to four digits, as `datetime.isoformat` does. -/
def pad4 (n : Int) : String :=
  let m := n.toNat
  if m < 10 then ("000") ++ toString m
  else if m < 100 then ("00") ++ toString m
  else if m < 1000 then ("0") ++ toString m
  else toString m

/-- The `dt.isoformat()` string of a whole-second UTC instant. -/
def isoCore (dt : CivDT) : String :=
  pad4 dt.year ++ ("-") ++ pad2 dt.month ++ ("-") ++ pad2 dt.day ++ ("T") ++
  pad2 dt.hour ++ (":") ++ pad2 dt.minute ++ (":") ++ pad2 dt.second

/-- The `dt.isoformat() + "Z"` string emitted by the extractor. -/
def isoZ (dt : CivDT) : String := isoCore dt ++ ("Z")

/-- Embedding of `to_iso_and_year` (extract_from_rawemail_only.py, lines
10-18): interpret the value as an integer epoch and return the ISO string
with trailing Z together with the UTC year; on any failure (no value, not
an integer literal, epoch outside datetime's range) return both `None`. -/
def toIsoAndYear (ts : Option DVal) : Option String × Option Int :=
  match ts with
  | none => (none, none)
  | some v =>
    match pyInt v with
    | none => (none, none)
    | some n =>
      match utcfromtimestampQ n with
      | none => (none, none)
      | some dt => (some (isoZ dt), some dt.year)

/- ------------------------------------------------------------------
   strip_html (extract_from_rawemail_only.py, lines 20-29).

   The source passes RAW Python strings that nevertheless contain doubled
   backslashes, so the compiled regexes are not the intended ones:
     r"(?is)<(script|style)[^>]*>.*?</\\1>"  needs the literal text `</\1>`
       (backslash, digit one) as closing delimiter,
     r"(?i)<\\s*br\\s*/?\\s*>" and r"(?i)</\\s*p\\s*>" need literal
       backslashes around the tag names,
     r"[ \\t\\r\\f\\v]+" is the character class containing the space, the
       backslash and the letters t, r, f, v,
     r"\n\\s*\n\\s*\n+" needs literal backslashes between the newlines.
   The scanners below implement exactly those (buggy) patterns with
   re.sub's leftmost, non-overlapping semantics.  -/

/-- Model of `html.unescape` restricted to the common named and numeric
character references (everything else is left untouched, as Python does
with unrecognised references). -/
def uneAux : Nat → List Char → List Char
  | 0, cs => cs
  | _ + 1, [] => []
  | fuel + 1, c :: rest =>
    if c = '&' then
      let try1 : Option (Char × List Char) :=
        if rest.take 4 = ['a','m','p',';'] then some ('&', rest.drop 4)
        else if rest.take 3 = ['l','t',';'] then some ('<', rest.drop 3)
        else if rest.take 3 = ['g','t',';'] then some ('>', rest.drop 3)
        else if rest.take 5 = ['q','u','o','t',';'] then some (Char.ofNat 34, rest.drop 5)
        else if rest.take 5 = ['a','p','o','s',';'] then some (Char.ofNat 39, rest.drop 5)
        else if rest.take 5 = ['n','b','s','p',';'] then some (Char.ofNat 160, rest.drop 5)
        else
          match rest with
          | '#' :: ds =>
            let digs := ds.takeWhile (fun d => d.isDigit)
            match ds.dropWhile (fun d => d.isDigit) with
            | ';' :: rem => if digs.isEmpty then none else some (Char.ofNat (digitsVal digs), rem)
            | _ => none
          | _ => none
      match try1 with
      | some (ch, rem) => ch :: uneAux fuel rem
      | none => c :: uneAux fuel rest
    else c :: uneAux fuel rest

/-- Model of Python `html.unescape`. -/
def htmlUnescape (s : String) : String := String.mk (uneAux (s.length + 1) s.data)

/-- Case-insensitive literal match; returns the remainder on success. -/
def startsWithCI : List Char → List Char → Option (List Char)
  | [], rest => some rest
  | _ :: _, [] => none
  | p :: ps, c :: rest => if c.toLower = p.toLower then startsWithCI ps rest else none

/-- Implements `[^>]*>` at the current position: drop everything up to
and including the first `>`; fails when there is none. -/
def afterGt : List Char → Option (List Char)
  | [] => none
  | c :: rest => if c = '>' then some rest else afterGt rest

/-- Matches `<(script|style)[^>]*>` at the current position. -/
def matchScriptStyleOpen (cs : List Char) : Option (List Char) :=
  match startsWithCI (['<','s','c','r','i','p','t']) cs with
  | some r => afterGt r
  | none =>
    match startsWithCI (['<','s','t','y','l','e']) cs with
    | some r => afterGt r
    | none => none

/-- Finds the literal closing text `</\1>` (slash-backslash-one, as the
doubled backslash in the raw pattern demands) and returns the remainder
after it. -/
def findCloseLit : List Char → Option (List Char)
  | [] => none
  | c :: rest =>
    match startsWithCI (['<','/','\\','1','>']) (c :: rest) with
    | some r => some r
    | none => findCloseLit rest

/-- Substitution 1: `re.sub(r"(?is)<(script|style)[^>]*>.*?</\\1>", "", s)`. -/
def sub1Aux : Nat → List Char → List Char
  | 0, cs => cs
  | _ + 1, [] => []
  | fuel + 1, c :: rest =>
    match matchScriptStyleOpen (c :: rest) with
    | some afterOpen =>
      match findCloseLit afterOpen with
      | some afterClose => sub1Aux fuel afterClose
      | none => c :: sub1Aux fuel rest
    | none => c :: sub1Aux fuel rest

/-- Drop a run of `s`/`S` characters, as the `s*` parts of the buggy
patterns demand under `(?i)`. -/
def dropSs (cs : List Char) : List Char := cs.dropWhile (fun c => c.toLower = 's')

/-- Matches the compiled form of `(?i)<\\s*br\\s*/?\\s*>`: a `<`, a
literal backslash, a run of `s`, `br`, a literal backslash, a run of `s`,
an optional `/`, a literal backslash, a run of `s`, then `>`. -/
def matchBrBuggy (cs : List Char) : Option (List Char) :=
  match cs with
  | '<' :: '\\' :: r1 =>
    match dropSs r1 with
    | b :: rc :: r4 =>
      if b.toLower = 'b' && rc.toLower = 'r' then
        match r4 with
        | '\\' :: r5 =>
          let r6 := dropSs r5
          let r7 := match r6 with
                    | '/' :: t => t
                    | _ => r6
          match r7 with
          | '\\' :: r8 =>
            match dropSs r8 with
            | '>' :: r9 => some r9
            | _ => none
          | _ => none
        | _ => none
      else none
    | _ => none
  | _ => none

/-- Substitution 2: `re.sub(r"(?i)<\\s*br\\s*/?\\s*>", "\n", s)`. -/
def sub2Aux : Nat → List Char → List Char
  | 0, cs => cs
  | _ + 1, [] => []
  | fuel + 1, c :: rest =>
    match matchBrBuggy (c :: rest) with
    | some after => '\n' :: sub2Aux fuel after
    | none => c :: sub2Aux fuel rest

/-- Matches the compiled form of `(?i)</\\s*p\\s*>`. -/
def matchPBuggy (cs : List Char) : Option (List Char) :=
  match cs with
  | '<' :: '/' :: '\\' :: r1 =>
    match dropSs r1 with
    | p :: r2 =>
      if p.toLower = 'p' then
        match r2 with
        | '\\' :: r3 =>
          match dropSs r3 with
          | '>' :: r4 => some r4
          | _ => none
        | _ => none
      else none
    | [] => none
  | _ => none

/-- Substitution 3: `re.sub(r"(?i)</\\s*p\\s*>", "\n", s)`. -/
def sub3Aux : Nat → List Char → List Char
  | 0, cs => cs
  | _ + 1, [] => []
  | fuel + 1, c :: rest =>
    match matchPBuggy (c :: rest) with
    | some after => '\n' :: sub3Aux fuel after
    | none => c :: sub3Aux fuel rest

/-- Matches `<[^>]+>` at the current position. -/
def matchTag (cs : List Char) : Option (List Char) :=
  match cs with
  | '<' :: c2 :: rest => if c2 = '>' then none else afterGt (c2 :: rest)
  | _ => none

/-- Substitution 4: `re.sub(r"<[^>]+>", "", s)`. -/
def sub4Aux : Nat → List Char → List Char
  | 0, cs => cs
  | _ + 1, [] => []
  | fuel + 1, c :: rest =>
    match matchTag (c :: rest) with
    | some after => sub4Aux fuel after
    | none => c :: sub4Aux fuel rest

/-- The character class of the compiled `r"[ \\t\\r\\f\\v]+"`: space,
backslash and the plain letters t, r, f, v. -/
def inCls5 (c : Char) : Bool :=
  c = ' ' || c = '\\' || c = 't' || c = 'r' || c = 'f' || c = 'v'

/-- Substitution 5: `re.sub(r"[ \\t\\r\\f\\v]+", " ", s)`. -/
def sub5Aux : Nat → List Char → List Char
  | 0, cs => cs
  | _ + 1, [] => []
  | fuel + 1, c :: rest =>
    if inCls5 c then ' ' :: sub5Aux fuel (rest.dropWhile inCls5)
    else c :: sub5Aux fuel rest

/-- Matches the compiled form of `\n\\s*\n\\s*\n+` (newline, literal
backslash, run of `s`, newline, literal backslash, run of `s`, one or
more newlines, greedy). -/
def matchSub6 (cs : List Char) : Option (List Char) :=
  match cs with
  | '\n' :: '\\' :: r1 =>
    match dropSs r1 with
    | '\n' :: '\\' :: r2 =>
      match dropSs r2 with
      | '\n' :: r3 => some (r3.dropWhile (fun c => c = '\n'))
      | _ => none
    | _ => none
  | _ => none

/-- Substitution 6: `re.sub(r"\n\\s*\n\\s*\n+", "\n\n", s)`. -/
def sub6Aux : Nat → List Char → List Char
  | 0, cs => cs
  | _ + 1, [] => []
  | fuel + 1, c :: rest =>
    match matchSub6 (c :: rest) with
    | some after => '\n' :: '\n' :: sub6Aux fuel after
    | none => c :: sub6Aux fuel rest

/-- Run one scanner over a string with enough fuel to finish. -/
def runSub (f : Nat → List Char → List Char) (s : String) : String :=
  String.mk (f (s.length + 1) s.data)

/-- Embedding of `strip_html` (extract_from_rawemail_only.py, lines
20-29): unescape entities, run the six substitutions as compiled from the
source's raw strings, then strip. -/
def stripHtml (s : String) : String :=
  if s = "" then ""
  else pyStrip (runSub sub6Aux (runSub sub5Aux (runSub sub4Aux (runSub sub3Aux
    (runSub sub2Aux (runSub sub1Aux (htmlUnescape s)))))))

/- ------------------------------------------------------------------
   email_to_text (extract_from_rawemail_only.py, lines 38-75).
   The stdlib MIME parser (`BytesParser(policy=default).parsebytes`) is an
   external collaborator; it is abstracted as an oracle returning the
   parsed message shape, `none` standing for a raised exception. -/

/-- One part as the script observes it: its (already lowered-at-use)
content type, the result of `get_content()` (`none` = raised), and the
decoded-payload fallback text `(part.get_payload(decode=True) or
b"").decode("utf-8", "ignore")`. -/
structure PyPart where
  ctype : String
  getContent : Option String
  payloadText : String

/-- A parsed MIME message as the script observes it: the multipart flag,
the parts yielded by `msg.walk()`, and the message itself viewed as a
single part for the non-multipart branch. -/
structure PyMsg where
  multipart : Bool
  walkParts : List PyPart
  selfPart : PyPart

/-- Lower-case ASCII, as Python `str.lower()` behaves on the ASCII
content types that occur. -/
def pyLower (s : String) : String := String.mk (s.data.map Char.toLower)

/-- The text the script extracts from one part: `get_content()` if it
does not raise, else the decoded payload. -/
def partText (p : PyPart) : String := p.getContent.getD p.payloadText

/-- The `parts` list collected by `email_to_text`'s two branches. -/
def collectParts (m : PyMsg) : List String :=
  if m.multipart then
    m.walkParts.foldl (fun acc part =>
      let ct := pyLower part.ctype
      if ct = "text/plain" then acc ++ [partText part]
      else if ct = "text/html" then acc ++ [stripHtml (partText part)]
      else acc) []
  else
    let ct := pyLower m.selfPart.ctype
    let content := partText m.selfPart
    if ct = "text/plain" then [content]
    else if ct = "text/html" then [stripHtml content]
    else [content]

/-- CRLF to LF normalization, `raw.replace("\r\n", "\n")`. -/
def crlfToLf (s : String) : String := pyReplace s ("\r\n") ("\n")

/-- Embedding of `email_to_text` (lines 38-75), parameterized by the MIME
parser oracle (`none` = parsing raised). -/
def emailToText (parse : String → Option PyMsg) (raw : String) : String :=
  match parse raw with
  | none => crlfToLf raw
  | some m =>
    let parts := collectParts m
    let text := String.intercalate ("\n") (parts.filter (fun p => p ≠ ""))
    if pyStrip text ≠ "" then pyStrip text else crlfToLf raw

/-- The Email Body Resolver as the spec words it after amendment: on a
parse failure return the CRLF-normalized raw text; otherwise join the
non-empty collected parts with newlines and strip surrounding whitespace;
if that stripped text is empty fall back to the CRLF-normalized raw text. -/
def emailToTextSpec (parse : String → Option PyMsg) (raw : String) : String :=
  match parse raw with
  | none => crlfToLf raw
  | some m =>
    let joined := String.intercalate ("\n") ((collectParts m).filter (fun p => p ≠ ""))
    let stripped := pyStrip joined
    if stripped = "" then crlfToLf raw else stripped

/- ------------------------------------------------------------------
   The record loop of extract_from_rawemail_only.py (lines 77-134). -/

/-- One raw record, typed at exactly the keys the extractor reads. -/
structure Rec where
  msgId : Option DVal := none
  messageId : Option DVal := none
  idF : Option DVal := none
  rawEmail : Option String := none
  subject : Option String := none
  authorName : Option String := none
  author : Option String := none
  yahooAlias : Option String := none
  fromF : Option String := none
  postDate : Option DVal := none
  lastPosted : Option DVal := none
  date : Option DVal := none
  topicFirstRecord : Option DVal := none
  topicId : Option DVal := none

/-- `d.get("msgId") or d.get("messageId") or d.get("id")` (line 96). -/
def midChain (r : Rec) : Option DVal := pyOr (pyOr r.msgId r.messageId) r.idF

/-- The identity guard of lines 96-101: `None` when the record is skipped
(`mid is None or not raw`), otherwise the id coerced to string. -/
def acceptedId (r : Rec) : Option String :=
  match midChain r with
  | none => none
  | some v => if strTruthy r.rawEmail then some (pyStr v) else none

/-- `d.get("postDate") or d.get("lastPosted") or d.get("date")`
(line 110). -/
def tsField (r : Rec) : Option DVal := pyOr (pyOr r.postDate r.lastPosted) r.date

/-- `str(d.get("topicFirstRecord") or d.get("topicId") or mid)`
(lines 111 and 118). -/
def threadOf (r : Rec) (mid : String) : String :=
  let t := pyOr r.topicFirstRecord r.topicId
  if pyTruthy t then pyStr (t.getD (DVal.s mid)) else mid

/-- A CanonicalMessage as assembled at lines 116-125. -/
structure Msg where
  id : String
  thread_id : String
  subject : String
  author : String
  timestamp : Option String
  year : Option Int
  index_text : String
  full_text : String
deriving Repr, DecidableEq

/-- Assembly of the CanonicalMessage for an accepted record (lines
107-125), given the MIME parser oracle. -/
def buildMsg (parse : String → Option PyMsg) (r : Rec) (mid : String) : Msg :=
  let tsy := toIsoAndYear (tsField r)
  let fullText := emailToText parse (r.rawEmail.getD "")
  { id := mid
  , thread_id := threadOf r mid
  , subject := pyStrip (r.subject.getD "")
  , author := pyStrip ((strOr (strOr (strOr r.authorName r.author) r.yahooAlias) r.fromF).getD "")
  , timestamp := tsy.1
  , year := tsy.2
  , index_text := (emailToText parse (r.rawEmail.getD "")).take 1000
  , full_text := fullText }

/-- The mutable state of the record loop: the `seen` set (as the list of
ids in insertion order), the full-corpus output and the per-year map. -/
structure BState where
  seen : List String
  out : List Msg
  perYear : List (Int × List Msg)

/-- `per_year.setdefault(year, []).append(line)` (line 129). -/
def pushYear : List (Int × List Msg) → Int → Msg → List (Int × List Msg)
  | [], y, m => [(y, [m])]
  | (y', l) :: rest, y, m =>
    if y' = y then (y', l ++ [m]) :: rest else (y', l) :: pushYear rest y m

/-- One iteration of the record loop (lines 93-130). -/
def stepRec (parse : String → Option PyMsg) (st : BState) (r : Rec) : BState :=
  match acceptedId r with
  | none => st
  | some mid =>
    if mid ∈ st.seen then st
    else
      let msg := buildMsg parse r mid
      { seen := st.seen ++ [mid]
      , out := st.out ++ [msg]
      , perYear :=
          match msg.year with
          | some y => pushYear st.perYear y msg
          | none => st.perYear }

/-- The record loop from a given state. -/
def processFrom (parse : String → Option PyMsg) (st : BState) : List Rec → BState
  | [] => st
  | r :: rs => processFrom parse (stepRec parse st r) rs

/-- The whole extraction run over a stream of raw records. -/
def processRecords (parse : String → Option PyMsg) (rs : List Rec) : BState :=
  processFrom parse ⟨[], [], []⟩ rs

/-- Lookup of one year partition; an absent key denotes the partition
that was never created (no message carries that year). -/
def lookupYear : List (Int × List Msg) → Int → List Msg
  | [], _ => []
  | (y', l) :: rest, y => if y' = y then l else lookupYear rest y

/- ------------------------------------------------------------------
   Lemmas about the record loop. -/

/-- The loop writes to `seen` exactly when it emits, so `seen` always
equals the list of emitted ids. -/
def SeenInv (st : BState) : Prop := st.seen = st.out.map Msg.id

theorem stepRec_none (parse : String → Option PyMsg) (st : BState) (r : Rec)
    (h : acceptedId r = none) : stepRec parse st r = st := by
  unfold stepRec
  rw [h]

theorem stepRec_seen (parse : String → Option PyMsg) (st : BState) (r : Rec) (mid : String)
    (h : acceptedId r = some mid) (hm : mid ∈ st.seen) : stepRec parse st r = st := by
  unfold stepRec
  rw [h]
  exact if_pos hm

theorem stepRec_new (parse : String → Option PyMsg) (st : BState) (r : Rec) (mid : String)
    (h : acceptedId r = some mid) (hm : mid ∉ st.seen) :
    stepRec parse st r =
      { seen := st.seen ++ [mid]
      , out := st.out ++ [buildMsg parse r mid]
      , perYear :=
          match (buildMsg parse r mid).year with
          | some y => pushYear st.perYear y (buildMsg parse r mid)
          | none => st.perYear } := by
  unfold stepRec
  rw [h]
  exact if_neg hm

theorem seenInv_step (parse : String → Option PyMsg) (st : BState) (r : Rec)
    (h : SeenInv st) : SeenInv (stepRec parse st r) := by
  cases hr : acceptedId r with
  | none => rw [stepRec_none parse st r hr]; exact h
  | some mid =>
    by_cases hm : mid ∈ st.seen
    · rw [stepRec_seen parse st r mid hr hm]; exact h
    · rw [stepRec_new parse st r mid hr hm]
      unfold SeenInv at h ⊢
      simp [h, buildMsg]

theorem seenInv_processFrom (parse : String → Option PyMsg) (rs : List Rec) :
    ∀ st : BState, SeenInv st → SeenInv (processFrom parse st rs) := by
  induction rs with
  | nil => intro st h; exact h
  | cons r rs ih => intro st h; exact ih _ (seenInv_step parse st r h)

theorem out_step_mono (parse : String → Option PyMsg) (st : BState) (r : Rec)
    (msg : Msg) (h : msg ∈ st.out) : msg ∈ (stepRec parse st r).out := by
  cases hr : acceptedId r with
  | none => rw [stepRec_none parse st r hr]; exact h
  | some mid =>
    by_cases hm : mid ∈ st.seen
    · rw [stepRec_seen parse st r mid hr hm]; exact h
    · rw [stepRec_new parse st r mid hr hm]
      exact List.mem_append_left _ h

theorem out_processFrom_mono (parse : String → Option PyMsg) (rs : List Rec) :
    ∀ st : BState, ∀ msg ∈ st.out, msg ∈ (processFrom parse st rs).out := by
  induction rs with
  | nil => intro st msg h; exact h
  | cons r rs ih => intro st msg h; exact ih _ msg (out_step_mono parse st r msg h)

theorem find?_cons_pos' {α : Type} (p : α → Bool) (a : α) (l : List α) (h : p a = true) :
    (a :: l).find? p = some a :=
  List.find?_cons_of_pos l h

theorem find?_cons_neg' {α : Type} (p : α → Bool) (a : α) (l : List α) (h : p a = false) :
    (a :: l).find? p = l.find? p :=
  List.find?_cons_of_neg l (by simp [h])

/-- First-wins characterization of the emitted corpus, generalized over
the loop state. -/
theorem mem_processFrom_iff (parse : String → Option PyMsg) (rs : List Rec) :
    ∀ st : BState, ∀ msg : Msg,
      (msg ∈ (processFrom parse st rs).out ↔
        msg ∈ st.out ∨ (msg.id ∉ st.seen ∧
          ∃ r, rs.find? (fun r => acceptedId r == some msg.id) = some r
            ∧ msg = buildMsg parse r msg.id)) := by
  induction rs with
  | nil =>
    intro st msg
    simp [processFrom]
  | cons r0 rs ih =>
    intro st msg
    have hstep : processFrom parse st (r0 :: rs) = processFrom parse (stepRec parse st r0) rs := rfl
    rw [hstep, ih (stepRec parse st r0) msg]
    cases hr : acceptedId r0 with
    | none =>
      have hpred : (acceptedId r0 == some msg.id) = false := by simp [hr]
      rw [find?_cons_neg' (fun r => acceptedId r == some msg.id) r0 rs hpred,
        stepRec_none parse st r0 hr]
    | some m =>
      by_cases hid : m = msg.id
      · subst hid
        have hpred : (acceptedId r0 == some msg.id) = true := by simp [hr]
        rw [find?_cons_pos' (fun r => acceptedId r == some msg.id) r0 rs hpred]
        by_cases hm : msg.id ∈ st.seen
        · rw [stepRec_seen parse st r0 msg.id hr hm]
          constructor
          · rintro (h1 | ⟨h2, h3⟩)
            · exact Or.inl h1
            · exact absurd hm h2
          · rintro (h1 | ⟨h2, h3⟩)
            · exact Or.inl h1
            · exact absurd hm h2
        · rw [stepRec_new parse st r0 msg.id hr hm]
          constructor
          · rintro (h1 | ⟨h2, h3⟩)
            · rcases List.mem_append.mp h1 with h1a | h1b
              · exact Or.inl h1a
              · exact Or.inr ⟨hm, r0, rfl, List.mem_singleton.mp h1b⟩
            · exfalso
              apply h2
              exact List.mem_append_right _ (List.mem_singleton.mpr rfl)
          · rintro (h1 | ⟨h2, r1, hr1, hb⟩)
            · exact Or.inl (List.mem_append_left _ h1)
            · obtain rfl : r1 = r0 := by injection hr1 with h; exact h.symm
              exact Or.inl (List.mem_append_right _ (List.mem_singleton.mpr hb))
      · have hpred : (acceptedId r0 == some msg.id) = false := by
          simp [hr, hid]
        rw [find?_cons_neg' (fun r => acceptedId r == some msg.id) r0 rs hpred]
        by_cases hm : m ∈ st.seen
        · rw [stepRec_seen parse st r0 m hr hm]
        · rw [stepRec_new parse st r0 m hr hm]
          constructor
          · rintro (h1 | ⟨h2, h3⟩)
            · rcases List.mem_append.mp h1 with h1a | h1b
              · exact Or.inl h1a
              · exfalso
                have hb : msg = buildMsg parse r0 m := List.mem_singleton.mp h1b
                apply hid
                rw [hb]
                rfl
            · refine Or.inr ⟨?_, h3⟩
              intro hmem
              exact h2 (List.mem_append_left _ hmem)
          · rintro (h1 | ⟨h2, h3⟩)
            · exact Or.inl (List.mem_append_left _ h1)
            · refine Or.inr ⟨?_, h3⟩
              intro hmem
              rcases List.mem_append.mp hmem with ha | hb
              · exact h2 ha
              · exact hid (List.mem_singleton.mp hb).symm

theorem nodup_processFrom (parse : String → Option PyMsg) (rs : List Rec) :
    ∀ st : BState, SeenInv st → (st.out.map Msg.id).Nodup →
      ((processFrom parse st rs).out.map Msg.id).Nodup := by
  induction rs with
  | nil => intro st _ h2; exact h2
  | cons r rs ih =>
    intro st h1 h2
    refine ih _ (seenInv_step parse st r h1) ?_
    cases hr : acceptedId r with
    | none => rw [stepRec_none parse st r hr]; exact h2
    | some mid =>
      by_cases hm : mid ∈ st.seen
      · rw [stepRec_seen parse st r mid hr hm]; exact h2
      · rw [stepRec_new parse st r mid hr hm]
        have hnotin : mid ∉ st.out.map Msg.id := by rw [← h1]; exact hm
        simp only [List.map_append, List.map_cons, List.map_nil]
        rw [List.nodup_append]
        refine ⟨h2, List.nodup_singleton _, ?_⟩
        intro a ha hb
        have haeq : a = mid := by
          have := List.mem_singleton.mp hb
          simpa [buildMsg] using this
        subst haeq
        exact hnotin ha

theorem emitted_of_accepted (parse : String → Option PyMsg) (rs : List Rec) :
    ∀ st : BState, SeenInv st → ∀ r ∈ rs, ∀ m, acceptedId r = some m →
      ∃ msg ∈ (processFrom parse st rs).out, msg.id = m := by
  induction rs with
  | nil => intro st _ r hr; exact absurd hr (List.not_mem_nil r)
  | cons r0 rs ih =>
    intro st hinv r hr m hm
    rcases List.mem_cons.mp hr with rfl | htail
    · by_cases hseen : m ∈ st.seen
      · rw [hinv] at hseen
        rcases List.mem_map.mp hseen with ⟨msg, hmsg, hid⟩
        exact ⟨msg, out_processFrom_mono parse rs _ msg (out_step_mono parse st r msg hmsg), hid⟩
      · refine ⟨buildMsg parse r m, ?_, rfl⟩
        apply out_processFrom_mono parse rs _
        rw [stepRec_new parse st r m hm hseen]
        exact List.mem_append_right _ (List.mem_singleton.mpr rfl)
    · exact ih _ (seenInv_step parse st r0 hinv) r htail m hm

/-- C1: over any input stream, every id appears at most once in the
emitted corpus, the message kept for an id is built from the first record
whose accepted id equals it (later duplicates are discarded without
emission), and every accepted record's id does appear. -/
theorem c1_dedup_first_wins (parse : String → Option PyMsg) (rs : List Rec) :
    ((processRecords parse rs).out.map Msg.id).Nodup
    ∧ (∀ msg ∈ (processRecords parse rs).out,
        ∃ r, rs.find? (fun r => acceptedId r == some msg.id) = some r
          ∧ acceptedId r = some msg.id ∧ msg = buildMsg parse r msg.id)
    ∧ (∀ r ∈ rs, ∀ m, acceptedId r = some m →
        ∃ msg ∈ (processRecords parse rs).out, msg.id = m) := by
  refine ⟨nodup_processFrom parse rs ⟨[], [], []⟩ rfl (by simp), ?_, ?_⟩
  · intro msg hmem
    have h := (mem_processFrom_iff parse rs ⟨[], [], []⟩ msg).mp hmem
    rcases h with h1 | ⟨_, r, hfind, hb⟩
    · exact absurd h1 (List.not_mem_nil msg)
    · have hp := List.find?_some hfind
      have : acceptedId r = some msg.id := by
        exact eq_of_beq hp
      exact ⟨r, hfind, this, hb⟩
  · exact emitted_of_accepted parse rs ⟨[], [], []⟩ rfl

/-- Concrete record and corpus used by witnesses. -/
def recW1 : Rec := { msgId := some (.s "1"), rawEmail := some ("Subject: Hi") }

/-- Oracle for a MIME parser that always raises. -/
def parseNone : String → Option PyMsg := fun _ => none

/-- The message the extractor builds for `recW1`. -/
def msgW1 : Msg := buildMsg parseNone recW1 ("1")

/-- Witness for C1 at a concrete one-record stream. -/
theorem c1_dedup_first_wins_witness :
    ∃ r, [recW1].find? (fun r => acceptedId r == some msgW1.id) = some r
      ∧ acceptedId r = some msgW1.id ∧ msgW1 = buildMsg parseNone r msgW1.id :=
  (c1_dedup_first_wins parseNone [recW1]).2.1 msgW1 (List.mem_singleton.mpr rfl)

/-- C3 counterexample: a record with a non-empty identifier but no
`rawEmail` is rejected by the guard of line 98 and emits nothing, while
the claim says such a record is not rejected. -/
theorem c3_counterexample :
    midChain { msgId := some (.s ("1")) } = some (DVal.s ("1"))
    ∧ acceptedId { msgId := some (.s ("1")) } = none
    ∧ (processRecords parseNone [{ msgId := some (.s ("1")) }]).out = [] :=
  ⟨rfl, rfl, rfl⟩

/-- C3 amended: a raw record is rejected exactly when its id chain
evaluates to `None` or its `rawEmail` is absent or empty; in particular a
record with an identifier but no raw email body is rejected, and a
rejected record leaves the loop state unchanged. -/
theorem c3_amended_reject_rule (r : Rec) (parse : String → Option PyMsg) (st : BState) :
    (acceptedId r = none ↔ (midChain r = none ∨ strTruthy r.rawEmail = false))
    ∧ (acceptedId r = none → stepRec parse st r = st) := by
  constructor
  · unfold acceptedId
    cases h : midChain r with
    | none => simp
    | some v =>
      by_cases hr : strTruthy r.rawEmail
      · simp [hr]
      · simp [hr]
  · intro h
    unfold stepRec
    rw [h]

/-- Witness for the amended C3 at the concrete no-raw record. -/
theorem c3_amended_reject_rule_witness :
    acceptedId { msgId := some (.s ("1")) } = none
    ∧ stepRec parseNone ⟨[], [], []⟩ { msgId := some (.s ("1")) } = ⟨[], [], []⟩ :=
  ⟨rfl, (c3_amended_reject_rule { msgId := some (.s ("1")) } parseNone ⟨[], [], []⟩).2 rfl⟩

/- ------------------------------------------------------------------
   C9: year partitioning. -/

theorem lookupYear_pushYear (p : List (Int × List Msg)) (y0 y : Int) (m : Msg) :
    lookupYear (pushYear p y0 m) y =
      if y0 = y then lookupYear p y ++ [m] else lookupYear p y := by
  induction p with
  | nil =>
    by_cases h : y0 = y
    · simp [pushYear, lookupYear, h]
    · simp [pushYear, lookupYear, h]
  | cons hd tl ih =>
    obtain ⟨y', l⟩ := hd
    by_cases h1 : y' = y0
    · subst h1
      by_cases h2 : y' = y
      · simp [pushYear, lookupYear, h2]
      · simp [pushYear, lookupYear, h2]
    · by_cases h2 : y' = y
      · subst h2
        have : ¬ y0 = y' := fun hc => h1 hc.symm
        simp [pushYear, lookupYear, h1, this]
      · simp [pushYear, lookupYear, h1, h2, ih]

/-- The per-year partitions always hold exactly the emitted messages of
that year, in emission order. -/
def YearInv (st : BState) : Prop :=
  ∀ y, lookupYear st.perYear y = st.out.filter (fun m => m.year == some y)

theorem yearInv_step (parse : String → Option PyMsg) (st : BState) (r : Rec)
    (h : YearInv st) : YearInv (stepRec parse st r) := by
  cases hr : acceptedId r with
  | none => rw [stepRec_none parse st r hr]; exact h
  | some mid =>
    by_cases hm : mid ∈ st.seen
    · rw [stepRec_seen parse st r mid hr hm]; exact h
    · rw [stepRec_new parse st r mid hr hm]
      intro y
      cases hy : (buildMsg parse r mid).year with
      | none =>
        simp only [hy]
        rw [h y, List.filter_append]
        have : (List.filter (fun m => m.year == some y) [buildMsg parse r mid]) = [] := by
          simp [hy]
        rw [this, List.append_nil]
      | some y0 =>
        simp only [hy]
        rw [lookupYear_pushYear, h y, List.filter_append]
        by_cases hyy : y0 = y
        · subst hyy
          have : (List.filter (fun m => m.year == some y0) [buildMsg parse r mid]) =
              [buildMsg parse r mid] := by simp [hy]
          rw [this]
          simp
        · have : (List.filter (fun m => m.year == some y) [buildMsg parse r mid]) = [] := by
            simp [hy, hyy]
          rw [this, List.append_nil]
          simp [hyy]

theorem yearInv_processFrom (parse : String → Option PyMsg) (rs : List Rec) :
    ∀ st : BState, YearInv st → YearInv (processFrom parse st rs) := by
  induction rs with
  | nil => intro st h; exact h
  | cons r rs ih => intro st h; exact ih _ (yearInv_step parse st r h)

/-- C9: an emitted message with a null year appears in no year partition;
an emitted message with year `y` appears in partition `y` and in no
other. (Membership in the full corpus is the hypothesis `msg ∈ out`.) -/
theorem c9_year_partitioning (parse : String → Option PyMsg) (rs : List Rec) :
    ∀ msg ∈ (processRecords parse rs).out,
      (msg.year = none →
        ∀ y, msg ∉ lookupYear (processRecords parse rs).perYear y)
      ∧ (∀ y, msg.year = some y →
          msg ∈ lookupYear (processRecords parse rs).perYear y
          ∧ ∀ y2, y2 ≠ y → msg ∉ lookupYear (processRecords parse rs).perYear y2) := by
  intro msg hmem
  have hy : YearInv (processRecords parse rs) :=
    yearInv_processFrom parse rs ⟨[], [], []⟩ (fun y => rfl)
  constructor
  · intro hnone y hin
    rw [hy y] at hin
    have := List.of_mem_filter hin
    rw [hnone] at this
    exact absurd this (by simp)
  · intro y hsome
    constructor
    · rw [hy y]
      exact List.mem_filter.mpr ⟨hmem, by simp [hsome]⟩
    · intro y2 hne hin
      rw [hy y2] at hin
      have := List.of_mem_filter hin
      rw [hsome] at this
      have : y = y2 := by simpa using this
      exact hne this.symm

/-- Record used by the C9 witness: accepted, epoch 1000000000 (year
2001). -/
def recW9 : Rec :=
  { msgId := some (.s ("9")), rawEmail := some ("Body"), postDate := some (.i 1000000000) }

/-- The message built for `recW9`. -/
def msgW9 : Msg := buildMsg parseNone recW9 ("9")

/-- Witness for C9: the concrete 2001 message lands in partition 2001. -/
theorem c9_year_partitioning_witness :
    msgW9.year = some 2001
    ∧ msgW9 ∈ lookupYear (processRecords parseNone [recW9]).perYear 2001 :=
  ⟨rfl, ((c9_year_partitioning parseNone [recW9] msgW9 (List.mem_singleton.mpr rfl)).2
      2001 rfl).1⟩

/- ------------------------------------------------------------------
   C8: timestamp resolution. -/

/-- C8 counterexample: `postDate` is present but empty, so the claim's
"first present value" cannot be parsed as an integer and would demand
null timestamp and year; the code skips the falsy alias, uses `date`,
and sets both. -/
theorem c8_counterexample :
    pyInt (DVal.s ("")) = none
    ∧ tsField { postDate := some (.s ("")), date := some (.s ("1000000000")) }
        = some (DVal.s ("1000000000"))
    ∧ toIsoAndYear (tsField { postDate := some (.s ("")), date := some (.s ("1000000000")) })
        = (some ("2001-09-09T01:46:40Z"), some 2001) :=
  ⟨rfl, rfl, rfl⟩

/-- C8 amended: the resolved value is the Python or-chain `postDate or
lastPosted or date` — the first truthy (non-empty, non-zero) alias, or
else the value of the last alias `date` even when that one is falsy or
absent.  When that resolved value parses as an integer epoch within
datetime's representable range both fields are set (the ISO string
carrying a trailing Z and the year being that instant's UTC calendar
year); in every other case (no value, not an integer literal, epoch out
of range) both are null — never one without the other.  In particular a
record whose only date alias is the falsy integer 0 still gets both
fields set, to 1970-01-01T00:00:00Z and 1970. -/
theorem c8_amended_timestamp_resolution (r : Rec) :
    (tsField r = if pyTruthy r.postDate then r.postDate
      else if pyTruthy r.lastPosted then r.lastPosted
      else r.date)
    ∧ ((toIsoAndYear (tsField r)).1 = none ↔ (toIsoAndYear (tsField r)).2 = none)
    ∧ (tsField r = none → toIsoAndYear (tsField r) = (none, none))
    ∧ (∀ v, tsField r = some v → pyInt v = none → toIsoAndYear (tsField r) = (none, none))
    ∧ (∀ v n, tsField r = some v → pyInt v = some n → utcfromtimestampQ n = none →
        toIsoAndYear (tsField r) = (none, none))
    ∧ (∀ v n dt, tsField r = some v → pyInt v = some n → utcfromtimestampQ n = some dt →
        toIsoAndYear (tsField r) = (some (isoCore dt ++ ("Z")), some dt.year)) := by
  refine ⟨?_, ?_, ?_, ?_, ?_, ?_⟩
  · by_cases h1 : pyTruthy r.postDate
    · simp [tsField, pyOr, h1]
    · by_cases h2 : pyTruthy r.lastPosted
      · simp [tsField, pyOr, h1, h2]
      · simp [tsField, pyOr, h1, h2]
  · cases h : tsField r with
    | none => simp [toIsoAndYear]
    | some v =>
      cases h2 : pyInt v with
      | none => simp [toIsoAndYear, h2]
      | some n =>
        cases h3 : utcfromtimestampQ n with
        | none => simp [toIsoAndYear, h2, h3]
        | some dt => simp [toIsoAndYear, h2, h3]
  · intro h; simp [toIsoAndYear, h]
  · intro v h h2; simp [toIsoAndYear, h, h2]
  · intro v n h h2 h3; simp [toIsoAndYear, h, h2, h3]
  · intro v n dt h h2 h3; simp [toIsoAndYear, isoZ, h, h2, h3]

/-- Witness for the amended C8: a truthy integer epoch sets both fields,
and so does a record whose only alias is the falsy integer 0 (the
or-chain hands the last operand to `int()` even when it is falsy). -/
theorem c8_amended_timestamp_resolution_witness :
    toIsoAndYear (tsField recW9)
      = (some (isoCore (epochToCiv 1000000000) ++ ("Z")), some ((epochToCiv 1000000000).year))
    ∧ toIsoAndYear (tsField { date := some (.i 0) })
      = (some (isoCore (epochToCiv 0) ++ ("Z")), some ((epochToCiv 0).year)) :=
  ⟨(c8_amended_timestamp_resolution recW9).2.2.2.2.2 (DVal.i 1000000000) 1000000000
      (epochToCiv 1000000000) rfl rfl rfl,
   (c8_amended_timestamp_resolution { date := some (.i 0) }).2.2.2.2.2 (DVal.i 0) 0
      (epochToCiv 0) rfl rfl rfl⟩

/- ------------------------------------------------------------------
   C4: strip_html behaviour at the failing inputs. -/

/-- C4: the code leaves the contents of a script block in place, removes
`<br>` without inserting a newline, corrupts ordinary words containing
the letters t, r, f or v, and leaves runs of blank lines untouched —
each contradicting the claimed stripping behaviour. -/
theorem c4_striphtml_code_bug :
    stripHtml ("<script>x=1;</script>ok") = ("x=1;ok")
    ∧ stripHtml ("a<br>b") = ("ab")
    ∧ stripHtml ("water") = ("wa e")
    ∧ stripHtml ("a\n\n\n\nb") = ("a\n\n\n\nb") :=
  ⟨rfl, rfl, rfl, rfl⟩

/- ------------------------------------------------------------------
   C5: the email body resolver. -/

/-- A single-part plain-text message whose content carries surrounding
whitespace. -/
def msgHi : PyMsg := ⟨false, [], ⟨"text/plain", some (" hi "), ""⟩⟩

/-- Oracle parsing every raw string to `msgHi`. -/
def parseHi : String → Option PyMsg := fun _ => some msgHi

/-- C5 counterexample: the collected non-empty parts join to " hi " but
the resolver returns the stripped "hi", so it does not return the
collected parts joined by newlines as claimed. -/
theorem c5_counterexample :
    emailToText parseHi ("x") = ("hi")
    ∧ String.intercalate ("\n") ((collectParts msgHi).filter (fun p => p ≠ "")) = (" hi ")
    ∧ ("hi" : String) ≠ (" hi ") :=
  ⟨rfl, rfl, by decide⟩

/-- C5 amended: the resolver never raises and equals the spec-side
description — parse failure gives the CRLF-normalized raw text, an
empty-after-strip join gives the same fallback, and otherwise the
stripped join of the non-empty collected parts is returned. -/
theorem c5_amended_resolver_refinement (parse : String → Option PyMsg) (raw : String) :
    emailToText parse raw = emailToTextSpec parse raw := by
  unfold emailToText emailToTextSpec
  cases parse raw with
  | none => rfl
  | some m =>
    by_cases h :
        pyStrip (String.intercalate ("\n") ((collectParts m).filter (fun p => p ≠ ""))) = ""
    · simp [h]
    · simp [h]

/- ------------------------------------------------------------------
   generate_browse_pages.py: document model and thread keys. -/

/-- One docs.json / NDJSON document, typed at exactly the keys the
generator reads (field names with dashes and capitals are spelled out). -/
structure BDoc where
  threadIdDash : Option DVal := none
  threadIdUnd : Option DVal := none
  thread : Option DVal := none
  references : Option DVal := none
  referencesCap : Option DVal := none
  inReplyToDash : Option DVal := none
  inReplyToUnd : Option DVal := none
  inReplyToCap : Option DVal := none
  messageIdDash : Option DVal := none
  messageIdUnd : Option DVal := none
  msgid : Option DVal := none
  idF : Option DVal := none
  usId : Option DVal := none
  midF : Option DVal := none
  subject : Option DVal := none
  date : Option DVal := none
  datetimeF : Option DVal := none
  timestampF : Option DVal := none
  sent : Option DVal := none
  created : Option DVal := none
  time : Option DVal := none

/-- The normalization body shared by `_norm_msgid`, `_norm_id` and
`compute_mid` (lines 103-109, 180-190, 192-198): strip, drop one pair of
enclosing angle brackets, strip again. -/
def normStr (s : String) : String :=
  let t := stripChars s.data
  match t with
  | '<' :: rest =>
    match rest.reverse with
    | '>' :: revMid => String.mk (stripChars revMid.reverse)
    | _ => String.mk t
  | _ => String.mk t

/-- Characters the second `re.findall` alternative `[^,\s]+` accepts. -/
def notCommaWs (c : Char) : Bool := !(c = ',' || isPyWs c)

/-- Splits off a `<[^>]+>` token: everything up to the first `>` with at
least one character in between. -/
def splitAtGt (cs : List Char) : Option (List Char × List Char) :=
  let pre := cs.takeWhile (fun c => c ≠ '>')
  match cs.dropWhile (fun c => c ≠ '>') with
  | '>' :: rem => if pre.isEmpty then none else some ('<' :: pre ++ ['>'], rem)
  | _ => none

/-- Scanner for `re.findall(r"<[^>]+>|[^,\s]+", s)` (line 207). -/
def refTokensAux : Nat → List Char → List (List Char)
  | 0, _ => []
  | _ + 1, [] => []
  | fuel + 1, c :: rest =>
    if c = '<' then
      match splitAtGt rest with
      | some (tok, rem) => tok :: refTokensAux fuel rem
      | none =>
        ((c :: rest).takeWhile notCommaWs) :: refTokensAux fuel ((c :: rest).dropWhile notCommaWs)
    else if notCommaWs c then
      ((c :: rest).takeWhile notCommaWs) :: refTokensAux fuel ((c :: rest).dropWhile notCommaWs)
    else refTokensAux fuel rest

/-- Embedding of `_split_references` (lines 200-208): a list value is
used as-is, anything else is tokenised by the findall regex; each item is
kept when it is truthy and its normalization is non-empty. -/
def splitReferences (refs : DVal) : List String :=
  match refs with
  | .l items =>
    items.filterMap (fun x =>
      if pyTruthy (some x) then
        (let n := normStr (pyStr x); if n = "" then none else some n)
      else none)
  | v =>
    let toks := (refTokensAux ((pyStr v).length + 1) (pyStr v).data).map String.mk
    toks.filterMap (fun x =>
      if x ≠ "" then (let n := normStr x; if n = "" then none else some n) else none)

/-- Embedding of `_thread_key_from_doc` (lines 273-290): explicit thread
id fields first, then the first references entry, then the normalized
in-reply-to, then the message's own id; `None` when even that is absent
or normalizes to the empty string. -/
def threadKeyFromDoc (d : BDoc) : Option String :=
  if pyTruthy d.threadIdDash then some (pyStr (d.threadIdDash.getD (DVal.s "")))
  else if pyTruthy d.threadIdUnd then some (pyStr (d.threadIdUnd.getD (DVal.s "")))
  else if pyTruthy d.thread then some (pyStr (d.thread.getD (DVal.s "")))
  else
    let refs := pyOr d.references d.referencesCap
    let fromRefs : Option String :=
      if pyTruthy refs then
        match refs with
        | some rv => (splitReferences rv).head?
        | none => none
      else none
    match fromRefs with
    | some t => some t
    | none =>
      let irt := pyOr (pyOr d.inReplyToDash d.inReplyToUnd) d.inReplyToCap
      if pyTruthy irt then
        match irt with
        | some v => (let n := normStr (pyStr v); if n = "" then none else some n)
        | none => none
      else
        match pyOr (pyOr (pyOr d.messageIdDash d.messageIdUnd) d.msgid) d.idF with
        | some v => (let n := normStr (pyStr v); if n = "" then none else some n)
        | none => none

/-- First truthy value of a key list (`for k in keys: if doc.get(k): ...`). -/
def firstTruthy : List (Option DVal) → Option DVal
  | [] => none
  | o :: rest => if pyTruthy o then o else firstTruthy rest

/-- Embedding of `compute_mid` (lines 180-190); the built-in `hash` of
the subject/date fallback tuple is an oracle parameter (Python string
hashing is process-seeded). -/
def computeMid (hashF : DVal → String → Nat) (d : BDoc) : String :=
  match firstTruthy [d.idF, d.usId, d.messageIdDash, d.messageIdUnd, d.msgid, d.midF] with
  | some v => normStr (pyStr v)
  | none =>
    ("msg-") ++ toString (hashF (d.subject.getD (DVal.s "")) (pyStr (d.date.getD (DVal.s ""))))

/- ------------------------------------------------------------------
   datetime.fromisoformat and the date sort key (lines 485-494). -/

/-- An aware or naive datetime value as produced by
`datetime.fromisoformat` (offset stored in seconds; sub-second utc
offsets are not modelled). -/
structure PyDateTime where
  y : Int
  mo : Nat
  dy : Nat
  hr : Nat
  mi : Nat
  sec : Nat
  us : Nat
  tzsec : Option Int
deriving Repr, DecidableEq

/-- Gregorian leap year. -/
def isLeap (y : Int) : Bool := (Int.emod y 4 == 0 && Int.emod y 100 != 0) || Int.emod y 400 == 0

/-- Days in a month. -/
def daysInMonth (y : Int) (m : Nat) : Nat :=
  if m = 2 then (if isLeap y then 29 else 28)
  else if m = 4 ∨ m = 6 ∨ m = 9 ∨ m = 11 then 30
  else 31

/-- Two ASCII digits. -/
def twoDigs : List Char → Option (Nat × List Char)
  | a :: b :: rest =>
    if a.isDigit && b.isDigit then some ((a.toNat - 48) * 10 + (b.toNat - 48), rest) else none
  | _ => none

/-- A fraction of exactly 3 or 6 digits, scaled to microseconds. -/
def parseFrac (cs : List Char) : Option Nat :=
  if cs.length = 3 && cs.all (fun c => c.isDigit) then some (digitsVal cs * 1000)
  else if cs.length = 6 && cs.all (fun c => c.isDigit) then some (digitsVal cs)
  else none

/-- CPython's `_parse_hh_mm_ss_ff`: HH, then optional :MM, :SS, and a
.fff / .ffffff fraction only after the seconds. -/
def parseHMSF (cs : List Char) : Option (Nat × Nat × Nat × Nat) :=
  match twoDigs cs with
  | none => none
  | some (hh, r1) =>
    match r1 with
    | [] => some (hh, 0, 0, 0)
    | ':' :: r2 =>
      match twoDigs r2 with
      | none => none
      | some (mm, r3) =>
        match r3 with
        | [] => some (hh, mm, 0, 0)
        | ':' :: r4 =>
          match twoDigs r4 with
          | none => none
          | some (ss, r5) =>
            match r5 with
            | [] => some (hh, mm, ss, 0)
            | '.' :: r6 => (parseFrac r6).map (fun us => (hh, mm, ss, us))
            | _ => none
        | _ => none
    | _ => none

/-- The timezone tail after the sign: HH:MM, HH:MM:SS or
HH:MM:SS.ffffff (lengths 5, 8, 15); returns whole seconds. -/
def parseTzStr (cs : List Char) : Option Int :=
  if cs.length = 5 ∨ cs.length = 8 ∨ cs.length = 15 then
    match parseHMSF cs with
    | some (hh, mm, ss, _) => some (Int.ofNat (hh * 3600 + mm * 60 + ss))
    | none => none
  else none

/-- Model of `datetime.fromisoformat` as of CPython 3.10: a strict
YYYY-MM-DD date, an arbitrary separator character, HH[:MM[:SS[.fff]]],
and an optional ±HH:MM[:SS] offset (the `-` sign searched before `+`),
with the constructor's range validation.  (Signs or blanks inside the
fixed-width numeric slices are not modelled.) -/
def fromisoformatQ (s : String) : Option PyDateTime :=
  match s.data with
  | y1 :: y2 :: y3 :: y4 :: '-' :: m1 :: m2 :: '-' :: d1 :: d2 :: rest =>
    if y1.isDigit && y2.isDigit && y3.isDigit && y4.isDigit
        && m1.isDigit && m2.isDigit && d1.isDigit && d2.isDigit then
      let yv : Int := Int.ofNat (digitsVal [y1, y2, y3, y4])
      let mv := digitsVal [m1, m2]
      let dv := digitsVal [d1, d2]
      let timeRes : Option (Nat × Nat × Nat × Nat × Option Int) :=
        match rest with
        | [] => some (0, 0, 0, 0, none)
        | _sep :: tcs =>
          let split : List Char × Option (Bool × List Char) :=
            match tcs.findIdx? (fun c => c = '-') with
            | some i => (tcs.take i, some (true, tcs.drop (i + 1)))
            | none =>
              match tcs.findIdx? (fun c => c = '+') with
              | some i => (tcs.take i, some (false, tcs.drop (i + 1)))
              | none => (tcs, none)
          match parseHMSF split.1 with
          | none => none
          | some (hh, mi, ss, us) =>
            match split.2 with
            | none => some (hh, mi, ss, us, none)
            | some (neg, tzcs) =>
              match parseTzStr tzcs with
              | none => none
              | some off =>
                let o : Int := if neg then -off else off
                if -86400 < o ∧ o < 86400 then some (hh, mi, ss, us, some o) else none
      match timeRes with
      | none => none
      | some (hh, mi, ss, us, tz) =>
        if 1 ≤ yv ∧ yv ≤ 9999 ∧ 1 ≤ mv ∧ mv ≤ 12 ∧ 1 ≤ dv ∧ dv ≤ daysInMonth yv mv
            ∧ hh ≤ 23 ∧ mi ≤ 59 ∧ ss ≤ 59 then
          some ⟨yv, mv, dv, hh, mi, ss, us, tz⟩
        else none
    else none
  | _ => none

/-- Microseconds on the UTC axis (naive datetimes use offset 0, which
makes the comparison agree with Python's field-tuple comparison). -/
def dtToUs (dt : PyDateTime) : Int :=
  (daysFromCivil dt.y dt.mo dt.dy * 86400
    + Int.ofNat (dt.hr * 3600 + dt.mi * 60 + dt.sec)
    - dt.tzsec.getD 0) * 1000000 + Int.ofNat dt.us

/-- A `_date_sort_key` result: a datetime or a plain string. -/
inductive SortKey where
  | dt (d : PyDateTime)
  | str (s : String)
deriving Repr, DecidableEq

/-- Python `<` on two datetimes: `none` (a TypeError) when one is aware
and the other naive. -/
def pyLtDT (a b : PyDateTime) : Option Bool :=
  match a.tzsec, b.tzsec with
  | none, none => some (decide (dtToUs a < dtToUs b))
  | some _, some _ => some (decide (dtToUs a < dtToUs b))
  | _, _ => none

/-- Python `<` on strings: lexicographic by code point. -/
def ltCharList : List Char → List Char → Bool
  | [], [] => false
  | [], _ :: _ => true
  | _ :: _, [] => false
  | a :: as, b :: bs =>
    if a.toNat < b.toNat then true
    else if b.toNat < a.toNat then false
    else ltCharList as bs

/-- Python `<` on two sort keys: `none` (a TypeError) when a datetime
meets a string. -/
def pyLtKey : SortKey → SortKey → Option Bool
  | .dt a, .dt b => pyLtDT a b
  | .str a, .str b => some (ltCharList a.data b.data)
  | _, _ => none

/-- Embedding of `_date_sort_key` (lines 485-494): first truthy date
field, parsed with fromisoformat after replacing Z, with `str(v)` as the
fallback and `""` when no field is truthy. -/
def dateSortKey (d : BDoc) : SortKey :=
  match firstTruthy [d.date, d.datetimeF, d.timestampF, d.sent, d.created, d.time] with
  | none => .str ""
  | some v =>
    match fromisoformatQ (pyReplace (pyStr v) ("Z") ("+00:00")) with
    | some dt => .dt dt
    | none => .str (pyStr v)

/- ------------------------------------------------------------------
   Python's stable ascending sort with a partial (raising) comparison. -/

/-- Stable insertion with a fallible `<`: `none` propagates the
TypeError Python raises when keys are incomparable. -/
def insertQ {α : Type} (ltQ : α → α → Option Bool) (x : α) : List α → Option (List α)
  | [] => some [x]
  | y :: ys =>
    match ltQ y x with
    | none => none
    | some true => (insertQ ltQ x ys).map (fun l => y :: l)
    | some false => some (x :: y :: ys)

/-- Stable sort with a fallible comparison; agrees with Python `sorted`
on which inputs raise (any cross-type comparison in the list) and on the
resulting stable order otherwise. -/
def sortQ {α : Type} (ltQ : α → α → Option Bool) : List α → Option (List α)
  | [] => some []
  | x :: xs =>
    match sortQ ltQ xs with
    | none => none
    | some l => insertQ ltQ x l

/-- Comparison of two thread items `(mid, rd)` by their date sort key. -/
def ltItem (a b : String × BDoc) : Option Bool := pyLtKey (dateSortKey a.2) (dateSortKey b.2)

/- ------------------------------------------------------------------
   Thread grouping and navigation links (lines 459-507, 550-553). -/

/-- `threads.setdefault(tkey, []).append(item)` on an insertion-ordered
association list. -/
def groupUpd (k : String) (it : String × BDoc) : List (String × List (String × BDoc)) →
    List (String × List (String × BDoc))
  | [] => [(k, [it])]
  | g :: rest => if g.1 = k then (g.1, g.2 ++ [it]) :: rest else g :: groupUpd k it rest

/-- `tkey = _thread_key_from_doc(rd) or mid` (line 482). -/
def threadKeyOr (p : String × BDoc) : String :=
  match threadKeyFromDoc p.2 with
  | some t => if t = "" then p.1 else t
  | none => p.1

/-- The `threads` dict built at lines 479-483. -/
def groupThreads (pairs : List (String × BDoc)) : List (String × List (String × BDoc)) :=
  pairs.foldl (fun acc p => groupUpd (threadKeyOr p) p acc) []

/-- Sorting every thread by `_date_sort_key` (line 500); `none` when any
group raises. -/
def sortThreadsQ : List (String × List (String × BDoc)) →
    Option (List (String × List (String × BDoc)))
  | [] => some []
  | (k, items) :: rest =>
    match sortQ ltItem items with
    | none => none
    | some s =>
      match sortThreadsQ rest with
      | none => none
      | some r => some ((k, s) :: r)

/-- The per-thread mid lists, in thread insertion order. -/
def groupMids (gs : List (String × List (String × BDoc))) : List (List String) :=
  gs.map (fun g => g.2.map (fun p => p.1))

/-- Last-write-wins lookup, the dict semantics of repeated assignment. -/
def lookupLast {α : Type} (l : List (String × α)) (k : String) : Option α :=
  (l.reverse.find? (fun p => p.1 == k)).map (fun p => p.2)

/-- `mid_to_index = {m: i for i, m in enumerate(ordered_mids)}` (line
460): the dict keeps the last index of each mid. -/
def enumPairs (L : List String) : List (String × Nat) := L.enum.map (fun p => (p.2, p.1))

/-- `mid_to_index.get(mid)`. -/
def midToIdx (L : List String) (m : String) : Option Nat := lookupLast (enumPairs L) m

/-- `ordered_mids[idx + 1] if idx is not None and idx < len - 1 else
None` (line 553). -/
def nextChrono (L : List String) (m : String) : Option String :=
  match midToIdx L m with
  | none => none
  | some i => if i < L.length - 1 then L.get? (i + 1) else none

/-- `ordered_mids[idx - 1] if idx is not None and idx > 0 else None`
(line 552). -/
def prevChrono (L : List String) (m : String) : Option String :=
  match midToIdx L m with
  | none => none
  | some i => if i > 0 then L.get? (i - 1) else none

/-- `items_sorted[i - 1][0] if i > 0 else None` (line 502). -/
def prevAt (L : List String) (i : Nat) : Option String :=
  if i > 0 then L.get? (i - 1) else none

/-- `items_sorted[i + 1][0] if i < len(items_sorted) - 1 else None`
(line 503). -/
def nextAt (L : List String) (i : Nat) : Option String :=
  if i < L.length - 1 then L.get? (i + 1) else none

/-- All `prev_next_in_thread[mid] = (prev, next)` assignments, in
execution order (lines 497-504). -/
def threadEntries (gs : List (List String)) : List (String × (Option String × Option String)) :=
  (gs.map (fun L => L.enum.map (fun p => (p.2, (prevAt L p.1, nextAt L p.1))))).flatten

/-- `prev_next_in_thread.get(mid)`. -/
def pnThread (gs : List (List String)) (m : String) : Option (Option String × Option String) :=
  lookupLast (threadEntries gs) m

/-- The prev-in-thread link of a message. -/
def prevInThread (gs : List (List String)) (m : String) : Option String :=
  match pnThread gs m with
  | none => none
  | some pr => pr.1

/-- The next-in-thread link of a message. -/
def nextInThread (gs : List (List String)) (m : String) : Option String :=
  match pnThread gs m with
  | none => none
  | some pr => pr.2

/-- `ordered_mids = [compute_mid(d) for d in docs]` (line 459). -/
def orderedMids (hashF : DVal → String → Nat) (docs : List BDoc) : List String :=
  docs.map (computeMid hashF)

/-- `full_docs` (lines 463-477): mids are computed from the original
docs; the NDJSON enrichment of the paired record is an oracle (it never
changes the mid, which is computed before the update). -/
def fullDocs (hashF : DVal → String → Nat) (enrich : BDoc → BDoc) (docs : List BDoc) :
    List (String × BDoc) :=
  docs.map (fun d => (computeMid hashF d, enrich d))

/- ------------------------------------------------------------------
   C2: the in-reply-to chain scenario. -/

/-- A document carrying only its own id. -/
def docOwnId (i : String) : BDoc := { idF := some (.s i) }

/-- A document with its own id and an in-reply-to header. -/
def docReply (i r : String) : BDoc := { idF := some (.s i), inReplyToDash := some (.s r) }

/-- C2 counterexample: with B replying to A and C replying to B (no
thread fields, no references), C's thread key is B's id, not A's id, so
the three messages do not share a thread id. -/
theorem c2_counterexample :
    threadKeyFromDoc (docOwnId ("A")) = some ("A")
    ∧ threadKeyFromDoc (docReply ("B") ("A")) = some ("A")
    ∧ threadKeyFromDoc (docReply ("C") ("B")) = some ("B")
    ∧ threadKeyFromDoc (docReply ("C") ("B")) ≠ threadKeyFromDoc (docOwnId ("A")) :=
  ⟨rfl, rfl, rfl, by decide⟩

/-- C2 amended: thread keys are assigned per message without transitive
chaining — A keys to its own id, B (replying to A) keys to A's id, but C
(replying to B) keys to B's id; the three share one thread only in the
degenerate case B's id = A's id. -/
theorem c2_amended_reply_chain (ia ib ic : String)
    (ha : normStr ia = ia) (ha2 : ia ≠ "")
    (hb2 : ib ≠ "")
    (hbn : normStr ib = ib) :
    threadKeyFromDoc (docOwnId ia) = some ia
    ∧ threadKeyFromDoc (docReply ib ia) = some ia
    ∧ threadKeyFromDoc (docReply ic ib) = some ib := by
  refine ⟨?_, ?_, ?_⟩
  · show threadKeyFromDoc { idF := some (.s ia) } = some ia
    simp only [threadKeyFromDoc, docOwnId, pyTruthy, pyOr]
    simp [pyStr, ha, ha2]
  · show threadKeyFromDoc { idF := some (.s ib), inReplyToDash := some (.s ia) } = some ia
    simp only [threadKeyFromDoc, docReply, pyTruthy, pyOr]
    simp [pyStr, ha, ha2]
  · show threadKeyFromDoc { idF := some (.s ic), inReplyToDash := some (.s ib) } = some ib
    simp only [threadKeyFromDoc, docReply, pyTruthy, pyOr]
    simp [pyStr, hbn, hb2]

/-- Witness for the amended C2 at the concrete A/B/C documents. -/
theorem c2_amended_reply_chain_witness :
    threadKeyFromDoc (docOwnId ("A")) = some ("A")
    ∧ threadKeyFromDoc (docReply ("B") ("A")) = some ("A")
    ∧ threadKeyFromDoc (docReply ("C") ("B")) = some ("B") :=
  c2_amended_reply_chain ("A") ("B") ("C") rfl (by decide) (by decide) rfl

/- ------------------------------------------------------------------
   C6: the thread sort can raise on mixed keys. -/

/-- A thread whose two messages carry a parseable and an unparseable
timestamp respectively. -/
def mixedThreadItems : List (String × BDoc) :=
  [(("m1"), { timestampF := some (.s ("2001-09-09T01:46:40Z")) }),
   (("m2"), { timestampF := some (.s ("x")) })]

/-- C6: sorting a thread that mixes a parseable timestamp (a datetime
key) with an unparseable one (a string key) raises a TypeError — the
embedded sort returns `none` — contradicting the claim that the sort
always succeeds.  The two keys are indeed of different kinds. -/
theorem c6_sort_code_bug :
    sortQ ltItem mixedThreadItems = none
    ∧ dateSortKey { timestampF := some (.s ("2001-09-09T01:46:40Z")) }
        = .dt ⟨2001, 9, 9, 1, 46, 40, 0, some 0⟩
    ∧ dateSortKey { timestampF := some (.s ("x")) } = .str ("x") :=
  ⟨rfl, rfl, rfl⟩

/- ------------------------------------------------------------------
   C10: _try_decode_base64_heuristic (lines 111-126). -/

/-- `re.sub(r"\s+", "", text)`: drop all whitespace. -/
def stripWsAll (text : String) : String := String.mk (text.data.filter (fun c => !isPyWs c))

/-- The base64 alphabet of the guard `[^A-Za-z0-9+/=]`. -/
def isB64AlphaOrPad (c : Char) : Bool :=
  c.isAlpha || c.isDigit || c = '+' || c = '/' || c = '='

/-- Six-bit value of a base64 data character. -/
def b64val (c : Char) : Nat :=
  if 'A' ≤ c ∧ c ≤ 'Z' then c.toNat - 65
  else if 'a' ≤ c ∧ c ≤ 'z' then c.toNat - 97 + 26
  else if c.isDigit then c.toNat - 48 + 52
  else if c = '+' then 62
  else 63

/-- Bytes from a run of six-bit values (final group of 3 or 2 values
comes from one or two padding characters). -/
def b64Groups : List Nat → List Nat
  | a :: b :: c :: d :: rest =>
    (a * 4 + b / 16) :: ((b % 16) * 16 + c / 4) :: ((c % 4) * 64 + d) :: b64Groups rest
  | [a, b, c] => [a * 4 + b / 16, (b % 16) * 16 + c / 4]
  | [a, b] => [a * 4 + b / 16]
  | _ => []

/-- Model of `base64.b64decode(s, validate=True)`: all characters must
be in the alphabet, length divisible by 4, `=` only as one or two
trailing padding characters; `none` models the raised binascii.Error. -/
def b64decodeQ (s : String) : Option (List Nat) :=
  let cs := s.data
  if cs.any (fun c => !isB64AlphaOrPad c) then none
  else if cs.length % 4 ≠ 0 then none
  else
    let body := cs.takeWhile (fun c => c ≠ '=')
    let pad := cs.dropWhile (fun c => c ≠ '=')
    if !pad.all (fun c => c = '=') then none
    else if pad.length > 2 then none
    else some (b64Groups (body.map b64val))

/-- UTF-8 decoding of a byte list (strict, as `bytes.decode("utf-8")`):
rejects continuation errors, overlong forms, surrogates and
out-of-range code points. -/
def utf8Aux : List Nat → Option (List Char)
  | [] => some []
  | b :: rest =>
    if b < 128 then (utf8Aux rest).map (fun l => Char.ofNat b :: l)
    else if b < 192 then none
    else if b < 224 then
      match rest with
      | b2 :: rest2 =>
        if 128 ≤ b2 && b2 < 192 then
          let v := (b - 192) * 64 + (b2 - 128)
          if v < 128 then none else (utf8Aux rest2).map (fun l => Char.ofNat v :: l)
        else none
      | [] => none
    else if b < 240 then
      match rest with
      | b2 :: b3 :: rest2 =>
        if (128 ≤ b2 && b2 < 192) && (128 ≤ b3 && b3 < 192) then
          let v := (b - 224) * 4096 + (b2 - 128) * 64 + (b3 - 128)
          if v < 2048 ∨ (55296 ≤ v ∧ v ≤ 57343) then none
          else (utf8Aux rest2).map (fun l => Char.ofNat v :: l)
        else none
      | _ => none
    else if b < 248 then
      match rest with
      | b2 :: b3 :: b4 :: rest2 =>
        if (128 ≤ b2 && b2 < 192) && (128 ≤ b3 && b3 < 192) && (128 ≤ b4 && b4 < 192) then
          let v := (b - 240) * 262144 + (b2 - 128) * 4096 + (b3 - 128) * 64 + (b4 - 128)
          if v < 65536 ∨ v > 1114111 then none
          else (utf8Aux rest2).map (fun l => Char.ofNat v :: l)
        else none
      | _ => none
    else none

/-- Embedding of `_try_decode_base64_heuristic` (lines 111-126): after
dropping whitespace the string must be at least 16 characters of pure
base64 alphabet and decode as valid base64; utf-8 decoding is attempted
and latin-1 (which never fails) is the fallback; any guard failure
returns `None`.  (`re.search` finding no illegal character is expressed
as `all isB64AlphaOrPad`.) -/
def tryDecodeBase64Heuristic (text : String) : Option String :=
  let s := stripWsAll text
  if s.length < 16 then none
  else if !(s.data.all isB64AlphaOrPad) then none
  else
    match b64decodeQ s with
    | none => none
    | some bytes =>
      match utf8Aux bytes with
      | some chars => some (String.mk chars)
      | none => some (String.mk (bytes.map (fun b => Char.ofNat b)))

/-- C10: the whole-string heuristic decodes only when, after whitespace
removal, at least 16 characters remain, all inside the base64 alphabet,
and the string decodes as valid base64; whenever any of these fails it
returns nothing (leaving the body unchanged). -/
theorem c10_base64_guard (text : String) :
    ((tryDecodeBase64Heuristic text).isSome →
      16 ≤ (stripWsAll text).length
      ∧ (stripWsAll text).data.all isB64AlphaOrPad = true
      ∧ (b64decodeQ (stripWsAll text)).isSome)
    ∧ ((stripWsAll text).length < 16 ∨ (stripWsAll text).data.all isB64AlphaOrPad = false
        ∨ b64decodeQ (stripWsAll text) = none →
      tryDecodeBase64Heuristic text = none) := by
  unfold tryDecodeBase64Heuristic
  by_cases h1 : (stripWsAll text).length < 16
  · rw [if_pos h1]
    exact ⟨fun hs => by simp at hs, fun _ => rfl⟩
  · rw [if_neg h1]
    by_cases h2 : (stripWsAll text).data.all isB64AlphaOrPad
    · rw [if_neg (by simp [h2])]
      cases h3 : b64decodeQ (stripWsAll text) with
      | none =>
        refine ⟨fun hs => by simp at hs, fun _ => rfl⟩
      | some bytes =>
        constructor
        · intro _
          exact ⟨Nat.le_of_not_lt h1, h2, by simp [h3]⟩
        · rintro (hbad | hbad | hbad)
          · exact absurd hbad h1
          · rw [h2] at hbad
            cases hbad
          · exact Option.noConfusion hbad
    · rw [if_pos (by simpa using h2)]
      exact ⟨fun hs => by simp at hs, fun _ => rfl⟩

/-- Witness for C10 at a concrete decodable input. -/
theorem c10_base64_guard_witness :
    16 ≤ (stripWsAll ("AAAAAAAAAAAAAAAA")).length
    ∧ (stripWsAll ("AAAAAAAAAAAAAAAA")).data.all isB64AlphaOrPad = true
    ∧ (b64decodeQ (stripWsAll ("AAAAAAAAAAAAAAAA"))).isSome :=
  (c10_base64_guard ("AAAAAAAAAAAAAAAA")).1 (by decide)

/- ------------------------------------------------------------------
   C7: symmetry of the navigation links. -/

theorem lookupLast_mem {α : Type} (l : List (String × α)) (k : String) (v : α)
    (h : lookupLast l k = some v) : (k, v) ∈ l := by
  unfold lookupLast at h
  cases hf : l.reverse.find? (fun p => p.1 == k) with
  | none => rw [hf] at h; cases h
  | some p =>
    obtain ⟨pk, pv⟩ := p
    rw [hf] at h
    have hp : pk = k := by simpa using List.find?_some hf
    have h2 : pv = v := by simpa using h
    subst hp
    subst h2
    exact List.mem_reverse.mp (List.mem_of_find?_eq_some hf)

theorem keys_nodup_unique {α : Type} (l : List (String × α)) (hnd : (l.map Prod.fst).Nodup)
    (k : String) (v w : α) (hv : (k, v) ∈ l) (hw : (k, w) ∈ l) : v = w := by
  induction l with
  | nil => cases hv
  | cons hd tl ih =>
    obtain ⟨hk, hvd⟩ := hd
    simp only [List.map_cons, List.nodup_cons] at hnd
    rcases List.mem_cons.mp hv with hv1 | hv1
    · rcases List.mem_cons.mp hw with hw1 | hw1
      · rw [Prod.mk.injEq] at hv1 hw1
        rw [hv1.2, hw1.2]
      · exfalso
        apply hnd.1
        rw [Prod.mk.injEq] at hv1
        rw [← hv1.1]
        exact List.mem_map.mpr ⟨(k, w), hw1, rfl⟩
    · rcases List.mem_cons.mp hw with hw1 | hw1
      · exfalso
        apply hnd.1
        rw [Prod.mk.injEq] at hw1
        rw [← hw1.1]
        exact List.mem_map.mpr ⟨(k, v), hv1, rfl⟩
      · exact ih hnd.2 hv1 hw1

theorem lookupLast_eq_some {α : Type} (l : List (String × α)) (hnd : (l.map Prod.fst).Nodup)
    (k : String) (v : α) (h : (k, v) ∈ l) : lookupLast l k = some v := by
  have hex : (l.reverse.find? (fun p => p.1 == k)).isSome := by
    rw [List.find?_isSome]
    exact ⟨(k, v), List.mem_reverse.mpr h, by simp⟩
  cases hf : l.reverse.find? (fun p => p.1 == k) with
  | none => rw [hf] at hex; cases hex
  | some p =>
    obtain ⟨pk, pv⟩ := p
    have hp : pk = k := by simpa using List.find?_some hf
    subst hp
    have hmem : (pk, pv) ∈ l := List.mem_reverse.mp (List.mem_of_find?_eq_some hf)
    have hvv : pv = v := keys_nodup_unique l hnd pk pv v hmem h
    unfold lookupLast
    rw [hf, hvv]
    rfl

theorem enumPairs_mem (L : List String) (m : String) (i : Nat) :
    (m, i) ∈ enumPairs L ↔ L.get? i = some m := by
  unfold enumPairs
  constructor
  · intro h
    rcases List.mem_map.mp h with ⟨p, hp, heq⟩
    obtain ⟨pi, pm⟩ := p
    have h1 : pm = m := congrArg Prod.fst heq
    have h2 : pi = i := congrArg Prod.snd heq
    subst h1
    subst h2
    exact List.mk_mem_enum_iff_get?.mp hp
  · intro h
    exact List.mem_map.mpr ⟨(i, m), List.mk_mem_enum_iff_get?.mpr h, rfl⟩

theorem enumPairs_map_fst (L : List String) : (enumPairs L).map Prod.fst = L := by
  unfold enumPairs
  rw [List.map_map]
  have hcomp : (Prod.fst ∘ fun p : Nat × String => (p.2, p.1)) = Prod.snd := rfl
  rw [hcomp]
  exact List.enum_map_snd L

theorem midToIdx_get (L : List String) (m : String) (i : Nat) (h : midToIdx L m = some i) :
    L.get? i = some m :=
  (enumPairs_mem L m i).mp (lookupLast_mem _ m i h)

theorem midToIdx_of_get (L : List String) (hnd : L.Nodup) (m : String) (i : Nat)
    (h : L.get? i = some m) : midToIdx L m = some i := by
  apply lookupLast_eq_some
  · rw [enumPairs_map_fst]
    exact hnd
  · exact (enumPairs_mem L m i).mpr h

theorem nextChrono_none (L : List String) (m : String) (h : midToIdx L m = none) :
    nextChrono L m = none := by
  unfold nextChrono
  rw [h]

theorem nextChrono_some (L : List String) (m : String) (i : Nat) (h : midToIdx L m = some i) :
    nextChrono L m = if i < L.length - 1 then L.get? (i + 1) else none := by
  unfold nextChrono
  rw [h]

theorem prevChrono_some (L : List String) (m : String) (i : Nat) (h : midToIdx L m = some i) :
    prevChrono L m = if i > 0 then L.get? (i - 1) else none := by
  unfold prevChrono
  rw [h]

/-- Symmetry of the chronological links for a corpus with distinct mids. -/
theorem chrono_symm (L : List String) (hnd : L.Nodup) (A B : String)
    (h : nextChrono L A = some B) : prevChrono L B = some A := by
  cases hA : midToIdx L A with
  | none => rw [nextChrono_none L A hA] at h; cases h
  | some i =>
    rw [nextChrono_some L A i hA] at h
    by_cases hi : i < L.length - 1
    · rw [if_pos hi] at h
      have hBidx : midToIdx L B = some (i + 1) := midToIdx_of_get L hnd B (i + 1) h
      have hAget : L.get? i = some A := midToIdx_get L A i hA
      rw [prevChrono_some L B (i + 1) hBidx, if_pos (Nat.succ_pos i)]
      simpa using hAget
    · rw [if_neg hi] at h
      cases h

theorem threadEntries_map_fst (gs : List (List String)) :
    (threadEntries gs).map Prod.fst = gs.flatten := by
  have hinner : ∀ L : List String,
      (List.map Prod.fst ∘ fun L : List String =>
        L.enum.map (fun p => (p.2, (prevAt L p.1, nextAt L p.1)))) L = L := by
    intro L
    show (L.enum.map (fun p => (p.2, (prevAt L p.1, nextAt L p.1)))).map Prod.fst = L
    rw [List.map_map]
    have hcomp : (Prod.fst ∘ fun p : Nat × String => (p.2, (prevAt L p.1, nextAt L p.1)))
        = Prod.snd := rfl
    rw [hcomp]
    exact List.enum_map_snd L
  unfold threadEntries
  rw [List.map_flatten, List.map_map]
  have hfun : (List.map Prod.fst ∘ fun L : List String =>
      L.enum.map (fun p => (p.2, (prevAt L p.1, nextAt L p.1)))) = id := funext hinner
  rw [hfun, List.map_id]

theorem mem_threadEntries (gs : List (List String)) (m : String)
    (pn : Option String × Option String) :
    (m, pn) ∈ threadEntries gs ↔
      ∃ L ∈ gs, ∃ i, L.get? i = some m ∧ pn = (prevAt L i, nextAt L i) := by
  unfold threadEntries
  rw [List.mem_flatten]
  constructor
  · rintro ⟨l, hl, hml⟩
    rcases List.mem_map.mp hl with ⟨L, hL, hLe⟩
    rw [← hLe] at hml
    rcases List.mem_map.mp hml with ⟨p, hp, heq⟩
    obtain ⟨pi, pm⟩ := p
    have hg := List.mk_mem_enum_iff_get?.mp hp
    have h1 : pm = m := congrArg Prod.fst heq
    have h2 : (prevAt L pi, nextAt L pi) = pn := congrArg Prod.snd heq
    subst h1
    exact ⟨L, hL, pi, hg, h2.symm⟩
  · rintro ⟨L, hL, i, hi, hpn⟩
    subst hpn
    refine ⟨L.enum.map (fun p => (p.2, (prevAt L p.1, nextAt L p.1))),
      List.mem_map.mpr ⟨L, hL, rfl⟩, ?_⟩
    exact List.mem_map.mpr ⟨(i, m), List.mk_mem_enum_iff_get?.mpr hi, rfl⟩

theorem nextInThread_none (gs : List (List String)) (m : String)
    (h : pnThread gs m = none) : nextInThread gs m = none := by
  unfold nextInThread
  rw [h]

theorem nextInThread_some (gs : List (List String)) (m : String)
    (pr : Option String × Option String) (h : pnThread gs m = some pr) :
    nextInThread gs m = pr.2 := by
  unfold nextInThread
  rw [h]

theorem prevInThread_some (gs : List (List String)) (m : String)
    (pr : Option String × Option String) (h : pnThread gs m = some pr) :
    prevInThread gs m = pr.1 := by
  unfold prevInThread
  rw [h]

/-- Symmetry of the in-thread links when the mids across all sorted
thread groups are distinct. -/
theorem thread_symm (gs : List (List String)) (hnd : gs.flatten.Nodup) (A B : String)
    (h : nextInThread gs A = some B) : prevInThread gs B = some A := by
  cases hA : pnThread gs A with
  | none => rw [nextInThread_none gs A hA] at h; cases h
  | some pr =>
    rw [nextInThread_some gs A pr hA] at h
    have hmemA : (A, pr) ∈ threadEntries gs := lookupLast_mem _ A pr hA
    rcases (mem_threadEntries gs A pr).mp hmemA with ⟨L, hL, i, hgetA, hpr⟩
    rw [hpr] at h
    have hnext : nextAt L i = some B := h
    unfold nextAt at hnext
    by_cases hi : i < L.length - 1
    · rw [if_pos hi] at hnext
      have hentryB : (B, (prevAt L (i + 1), nextAt L (i + 1))) ∈ threadEntries gs :=
        (mem_threadEntries gs B _).mpr ⟨L, hL, i + 1, hnext, rfl⟩
      have hkeys : ((threadEntries gs).map Prod.fst).Nodup := by
        rw [threadEntries_map_fst]
        exact hnd
      have hB : pnThread gs B = some (prevAt L (i + 1), nextAt L (i + 1)) :=
        lookupLast_eq_some _ hkeys B _ hentryB
      rw [prevInThread_some gs B _ hB]
      show prevAt L (i + 1) = some A
      unfold prevAt
      rw [if_pos (Nat.succ_pos i)]
      simpa using hgetA
    · rw [if_neg hi] at hnext
      cases hnext

theorem insertQ_perm {α : Type} (ltQ : α → α → Option Bool) (x : α) :
    ∀ (l out : List α), insertQ ltQ x l = some out → out.Perm (x :: l) := by
  intro l
  induction l with
  | nil =>
    intro out h
    unfold insertQ at h
    injection h with h
    rw [← h]
  | cons y ys ih =>
    intro out h
    unfold insertQ at h
    cases hlt : ltQ y x with
    | none => rw [hlt] at h; cases h
    | some b =>
      rw [hlt] at h
      cases b with
      | true =>
        cases hrec : insertQ ltQ x ys with
        | none => rw [hrec] at h; cases h
        | some l2 =>
          rw [hrec] at h
          injection h with h
          rw [← h]
          exact ((ih l2 hrec).cons y).trans (List.Perm.swap x y ys)
      | false =>
        injection h with h
        rw [← h]

theorem sortQ_perm {α : Type} (ltQ : α → α → Option Bool) :
    ∀ (l out : List α), sortQ ltQ l = some out → out.Perm l := by
  intro l
  induction l with
  | nil =>
    intro out h
    injection h with h
    rw [← h]
  | cons x xs ih =>
    intro out h
    unfold sortQ at h
    cases hrec : sortQ ltQ xs with
    | none => rw [hrec] at h; cases h
    | some l2 =>
      rw [hrec] at h
      exact (insertQ_perm ltQ x l2 out h).trans ((ih l2 hrec).cons x)

theorem groupUpd_cons_eq (k0 k : String) (l : List (String × BDoc))
    (tl : List (String × List (String × BDoc))) (it : String × BDoc) (h : k0 = k) :
    groupUpd k it ((k0, l) :: tl) = (k0, l ++ [it]) :: tl := by
  show (if (k0, l).1 = k then ((k0, l).1, (k0, l).2 ++ [it]) :: tl
    else (k0, l) :: groupUpd k it tl) = (k0, l ++ [it]) :: tl
  rw [if_pos h]

theorem groupUpd_cons_ne (k0 k : String) (l : List (String × BDoc))
    (tl : List (String × List (String × BDoc))) (it : String × BDoc) (h : ¬ k0 = k) :
    groupUpd k it ((k0, l) :: tl) = (k0, l) :: groupUpd k it tl := by
  show (if (k0, l).1 = k then ((k0, l).1, (k0, l).2 ++ [it]) :: tl
    else (k0, l) :: groupUpd k it tl) = (k0, l) :: groupUpd k it tl
  rw [if_neg h]

theorem groupUpd_flatten_perm (acc : List (String × List (String × BDoc))) (k : String)
    (it : String × BDoc) :
    ((groupUpd k it acc).map (fun g => g.2)).flatten.Perm
      ((acc.map (fun g => g.2)).flatten ++ [it]) := by
  induction acc with
  | nil => simp [groupUpd]
  | cons hd tl ih =>
    obtain ⟨k0, l⟩ := hd
    by_cases hk : k0 = k
    · rw [groupUpd_cons_eq k0 k l tl it hk]
      simp only [List.map_cons, List.flatten_cons]
      rw [List.append_assoc, List.append_assoc]
      exact List.Perm.append_left l List.perm_append_comm
    · rw [groupUpd_cons_ne k0 k l tl it hk]
      simp only [List.map_cons, List.flatten_cons]
      rw [List.append_assoc]
      exact List.Perm.append_left l ih

theorem groupThreads_flatten_perm (pairs : List (String × BDoc)) :
    ((groupThreads pairs).map (fun g => g.2)).flatten.Perm pairs := by
  suffices h : ∀ (l : List (String × BDoc)) (acc : List (String × List (String × BDoc))),
      ((l.foldl (fun acc p => groupUpd (threadKeyOr p) p acc) acc).map
        (fun g => g.2)).flatten.Perm ((acc.map (fun g => g.2)).flatten ++ l) by
    simpa using h pairs []
  intro l
  induction l with
  | nil => intro acc; simp
  | cons p ps ih =>
    intro acc
    simp only [List.foldl_cons]
    refine (ih (groupUpd (threadKeyOr p) p acc)).trans ?_
    refine ((groupUpd_flatten_perm acc (threadKeyOr p) p).append_right ps).trans ?_
    rw [List.append_assoc]
    exact List.Perm.refl _

theorem sortThreadsQ_mids_perm :
    ∀ (gs sorted : List (String × List (String × BDoc))),
      sortThreadsQ gs = some sorted →
      (groupMids sorted).flatten.Perm (groupMids gs).flatten := by
  intro gs
  induction gs with
  | nil =>
    intro sorted h
    injection h with h
    rw [← h]
  | cons g rest ih =>
    obtain ⟨k, items⟩ := g
    intro sorted h
    unfold sortThreadsQ at h
    cases h1 : sortQ ltItem items with
    | none => rw [h1] at h; cases h
    | some s =>
      rw [h1] at h
      cases h2 : sortThreadsQ rest with
      | none => rw [h2] at h; cases h
      | some r =>
        rw [h2] at h
        injection h with h
        rw [← h]
        simp only [groupMids, List.map_cons, List.flatten_cons]
        have hs : (s.map (fun p => p.1)).Perm (items.map (fun p => p.1)) :=
          (sortQ_perm ltItem items s h1).map _
        have hr := ih r h2
        simp only [groupMids] at hr
        exact hs.append hr

/-- C7: over a corpus whose computed mids are distinct and whose thread
sort succeeds, both link families are symmetric: next-chronological of A
being B forces prev-chronological of B to be A, and likewise for the
in-thread links computed from the sorted thread groups. -/
theorem c7_navigation_symmetry (hashF : DVal → String → Nat) (enrich : BDoc → BDoc)
    (docs : List BDoc) (sorted : List (String × List (String × BDoc)))
    (hnd : (orderedMids hashF docs).Nodup)
    (hsort : sortThreadsQ (groupThreads (fullDocs hashF enrich docs)) = some sorted) :
    (∀ A B, nextChrono (orderedMids hashF docs) A = some B →
        prevChrono (orderedMids hashF docs) B = some A)
    ∧ (∀ A B, nextInThread (groupMids sorted) A = some B →
        prevInThread (groupMids sorted) B = some A) := by
  constructor
  · intro A B h
    exact chrono_symm _ hnd A B h
  · have hmid : ∀ gs : List (String × List (String × BDoc)),
        (groupMids gs).flatten = ((gs.map (fun g => g.2)).flatten).map (fun p => p.1) := by
      intro gs
      rw [List.map_flatten, List.map_map]
      rfl
    have h2 : (groupMids (groupThreads (fullDocs hashF enrich docs))).flatten.Perm
        ((fullDocs hashF enrich docs).map (fun p => p.1)) := by
      rw [hmid]
      exact (groupThreads_flatten_perm _).map _
    have h3 : (fullDocs hashF enrich docs).map (fun p => p.1) = orderedMids hashF docs := by
      unfold fullDocs orderedMids
      rw [List.map_map]
      rfl
    have h4 : (groupMids sorted).flatten.Perm (orderedMids hashF docs) := by
      refine (sortThreadsQ_mids_perm _ sorted hsort).trans ?_
      rw [← h3]
      exact h2
    have hndj : (groupMids sorted).flatten.Nodup := h4.nodup_iff.mpr hnd
    intro A B h
    exact thread_symm _ hndj A B h

/-- Concrete corpus for the C7 witness (the reply-chain documents). -/
def docs0 : List BDoc := [docOwnId ("A"), docReply ("B") ("A"), docReply ("C") ("B")]

/-- Trivial hash oracle (the fallback branch is never taken here). -/
def hashF0 : DVal → String → Nat := fun _ _ => 0

/-- The sorted thread groups the generator computes for `docs0`. -/
def sorted0 : List (String × List (String × BDoc)) :=
  [(("A"), [(("A"), docOwnId ("A")), (("B"), docReply ("B") ("A"))]),
   (("B"), [(("C"), docReply ("C") ("B"))])]

/-- Witness for C7 at the concrete corpus: the concrete links are
mutually inverse. -/
theorem c7_navigation_symmetry_witness :
    prevChrono (orderedMids hashF0 docs0) ("B") = some ("A")
    ∧ prevInThread (groupMids sorted0) ("B") = some ("A") :=
  ⟨(c7_navigation_symmetry hashF0 id docs0 sorted0 (by decide) rfl).1 ("A") ("B") rfl,
   (c7_navigation_symmetry hashF0 id docs0 sorted0 (by decide) rfl).2 ("A") ("B") rfl⟩

end EvpItc
